import Mathlib

/-!
Verification of the YAML-subset codec and frontmatter codec of the giosite
repository (src/api/content.js: parseYAML, toYAML, parseFrontmatter,
toMarkdown).  Strings are modelled as lists of characters; JavaScript
objects are modelled as insertion-ordered association lists together with
the JS property-enumeration order (array-index keys first, ascending).
Whitespace is modelled as the ASCII subset (space, tab, CR, LF) of the
JS \s class, which covers every character class the codec is used with.
-/

namespace Gio

abbrev Str := List Char

def str (s : String) : Str := s.data

/-- Whitespace test used by `String.prototype.trim` and `/\S/`. -/
def isWS (c : Char) : Bool := c = ' ' || c = '\t' || c = '\n' || c = '\r'

def trimLeft : Str → Str
  | [] => []
  | c :: cs => if isWS c then trimLeft cs else c :: cs

def trimRight (s : Str) : Str := (trimLeft s.reverse).reverse

/-- Model of `String.prototype.trim`. -/
def jsTrim (s : Str) : Str := trimRight (trimLeft s)

/-- Model of `String.prototype.startsWith` (first argument is the pattern). -/
def hasPre : Str → Str → Bool
  | [], _ => true
  | _ :: _, [] => false
  | c :: p, d :: s => c = d && hasPre p s

/-- Model of `String.prototype.endsWith` (first argument is the pattern). -/
def endsW (p s : Str) : Bool := hasPre p.reverse s.reverse

/-- Model of `String.prototype.includes` for a single character. -/
def containsC (c : Char) (s : Str) : Bool := s.any (fun d => d = c)

/-- Model of `line.search(/\S/)`: index of the first non-whitespace
character, `-1` when there is none. -/
def search : Str → Int
  | [] => -1
  | c :: rest =>
    if isWS c then
      let r := search rest
      if r = -1 then -1 else r + 1
    else 0

def consHead (c : Char) : List Str → List Str
  | [] => [[c]]
  | l :: ls => (c :: l) :: ls

/-- Model of `text.split('\n')`. -/
def splitLines : Str → List Str
  | [] => [[]]
  | c :: cs => if c = '\n' then [] :: splitLines cs else consHead c (splitLines cs)

/-- Split at the first `':'`: used for both `content.split(':')` with
`valueParts.join(':')` and `indexOf(':')` with two slices, which agree. -/
def splitFirstColon : Str → Str × Str
  | [] => ([], [])
  | c :: rest =>
    if c = ':' then ([], rest)
    else
      let p := splitFirstColon rest
      (c :: p.1, p.2)

/-- Model of `.replace(':', '')`: removes the first colon only. -/
def removeFirstColon : Str → Str
  | [] => []
  | c :: rest => if c = ':' then rest else c :: removeFirstColon rest

def quoteD : Char := Char.ofNat 34

def quoteS : Char := Char.ofNat 39

def isQuote (c : Char) : Bool := c = quoteD || c = quoteS

def dropLeadQuote : Str → Str
  | [] => []
  | c :: cs => if isQuote c then cs else c :: cs

def dropTrailQuote (s : Str) : Str := (dropLeadQuote s.reverse).reverse

/-- Model of `.replace(/^["']|["']$/g, '')`: the global regex removes one
leading quote when present and one trailing quote when present,
independently of each other. -/
def stripQuotes (s : Str) : Str := dropTrailQuote (dropLeadQuote s)

/-- Numeric value of a digit string. -/
def digitsVal (s : Str) : Nat := s.foldl (fun a c => 10 * a + (c.toNat - 48)) 0

/-- JS array-index keys: canonical decimal strings below 2^32 - 1.  These
are the object keys that JS enumerates first, in ascending numeric order. -/
def arrayIndex (k : Str) : Option Nat :=
  match k with
  | [] => none
  | c :: rest =>
    if (c :: rest).all Char.isDigit && (c != '0' || rest.isEmpty)
        && decide (digitsVal (c :: rest) < 4294967295) then
      some (digitsVal (c :: rest))
    else none

def idxPair {α : Type} (p : Str × α) : Bool := (arrayIndex p.1).isSome

def idxVal {α : Type} (p : Str × α) : Nat := (arrayIndex p.1).getD 0

def insertIdx {α : Type} (p : Str × α) : List (Str × α) → List (Str × α)
  | [] => [p]
  | q :: rest => if idxVal q ≤ idxVal p then q :: insertIdx p rest else p :: q :: rest

def sortIdx {α : Type} : List (Str × α) → List (Str × α)
  | [] => []
  | p :: rest => insertIdx p (sortIdx rest)

/-- Model of `Object.entries` / `for...in` enumeration order on a JS
object stored as an insertion-ordered association list: array-index keys
first in ascending numeric order, then the other keys in insertion
order. -/
def jsEntries {α : Type} (l : List (Str × α)) : List (Str × α) :=
  sortIdx (l.filter idxPair) ++ l.filter (fun p => !(idxPair p))

def protoKey : Str := str "__proto__"

def objSetGo {α : Type} (k : Str) (v : α) : List (Str × α) → List (Str × α)
  | [] => [(k, v)]
  | (k2, v2) :: rest => if k2 = k then (k, v) :: rest else (k2, v2) :: objSetGo k v rest

/-- Model of `o[k] = v` on a plain JS object: updating an existing key
keeps its position, a new key is appended, and assigning `__proto__` a
string value is a silent no-op (the inherited setter ignores it). -/
def objSet {α : Type} (l : List (Str × α)) (k : Str) (v : α) : List (Str × α) :=
  if k = protoKey then l else objSetGo k v l

/-- A list record accumulated by the parser (a plain JS object whose
values are strings). -/
abbrev Rec := List (Str × Str)

/-- The values parseYAML stores in its result object: scalar strings or
lists of records. -/
inductive PVal where
  | s (v : Str) : PVal
  | list (items : List Rec) : PVal
deriving DecidableEq

/-- The mutable locals of parseYAML's scan. -/
structure PState where
  result : List (Str × PVal)
  currentKey : Option Str
  currentList : Option (List Rec)
  currentListItem : Option Rec
  inMulti : Bool
  multiKey : Str
  multiContent : Str
  indentLevel : Int
deriving DecidableEq

/-- The part of the loop body after the blank/comment skip and after the
multiline accumulator has been handled (the code from the
`trimmed.endsWith('|')` check onwards). -/
def stepRest (st : PState) (line trimmed : Str) : PState :=
  if endsW ['|'] trimmed then
    { st with
      multiKey := jsTrim (removeFirstColon trimmed.dropLast),
      multiContent := [],
      inMulti := true,
      indentLevel := search line }
  else if hasPre ['-', ' '] trimmed then
    let content := trimmed.drop 2
    if containsC ':' content then
      let p := splitFirstColon content
      let value := stripQuotes (jsTrim p.2)
      let list := st.currentList.getD []
      let item := st.currentListItem.getD []
      { st with
        currentList := some list,
        currentListItem := some (objSet item (jsTrim p.1) value) }
    else
      let list := st.currentList.getD []
      let flushed : List Rec × Option Rec :=
        match st.currentListItem with
        | some item => if item.isEmpty then (list, some item) else (list ++ [item], some [])
        | none => (list, none)
      { st with
        currentList := some (flushed.1 ++ [[(str "text", stripQuotes content)]]),
        currentListItem := flushed.2 }
  else
    let ls := search line
    if 4 ≤ ls ∧ st.currentListItem.isSome then
      if containsC ':' trimmed then
        let p := splitFirstColon trimmed
        { st with
          currentListItem :=
            some (objSet (st.currentListItem.getD []) (jsTrim p.1) (stripQuotes (jsTrim p.2))) }
      else st
    else
      let st2 :=
        if st.currentList.isSome ∧ ls = 0 ∧ containsC ':' trimmed then
          let list := st.currentList.getD []
          let flushed : List Rec × Option Rec :=
            match st.currentListItem with
            | some item => if item.isEmpty then (list, some item) else (list ++ [item], none)
            | none => (list, none)
          let result2 :=
            match st.currentKey with
            | some ck => objSet st.result ck (PVal.list flushed.1)
            | none => st.result
          { st with result := result2, currentList := none, currentListItem := flushed.2 }
        else st
      if containsC ':' trimmed && !(hasPre ['-'] trimmed) then
        let p := splitFirstColon trimmed
        let key := jsTrim p.1
        let value := stripQuotes (jsTrim p.2)
        if value.isEmpty && !(endsW ['|'] trimmed) then
          { st2 with currentKey := some key }
        else
          { st2 with result := objSet st2.result key (PVal.s value) }
      else st2

/-- One iteration of parseYAML's line loop. -/
def stepLine (st : PState) (line : Str) : PState :=
  let trimmed := jsTrim line
  if trimmed.isEmpty || hasPre ['#'] trimmed then
    if st.inMulti && trimmed.isEmpty then
      { st with multiContent := st.multiContent ++ ['\n'] }
    else st
  else if st.inMulti then
    let ci := search line
    if st.indentLevel < ci then
      { st with
        multiContent :=
          st.multiContent ++ (if st.multiContent.isEmpty then [] else ['\n']) ++ trimmed }
    else
      stepRest
        { st with
          result := objSet st.result st.multiKey (PVal.s (jsTrim st.multiContent)),
          inMulti := false }
        line trimmed
  else
    stepRest st line trimmed

def initState : PState :=
  { result := [], currentKey := none, currentList := none, currentListItem := none,
    inMulti := false, multiKey := [], multiContent := [], indentLevel := 0 }

/-- The code after the loop: commit a still-open list (a still-open
multiline block is NOT committed there). -/
def finishState (st : PState) : List (Str × PVal) :=
  match st.currentList with
  | none => st.result
  | some list =>
    let list2 :=
      match st.currentListItem with
      | some item => if item.isEmpty then list else list ++ [item]
      | none => list
    match st.currentKey with
    | some ck => objSet st.result ck (PVal.list list2)
    | none => st.result

/-- Model of parseYAML from src/api/content.js. -/
def parseYAML (text : Str) : List (Str × PVal) :=
  finishState ((splitLines text).foldl stepLine initState)

example :
    parseYAML (str "stats:\n  - number: \"500\"\n    label: \"Workouts\"\n  - number: \"10\"\n    label: \"Years\"")
      = [(str "stats", PVal.list [[(str "number", str "10"), (str "label", str "Years")]])] := by
  decide

example :
    parseYAML (str "bio: |\n  Line one.\n\n  Line two.") = [] := by
  decide

example :
    parseYAML (str "bio: |\n  Line one.\n\n  Line two.\nnext: \"x\"")
      = [(str "bio", PVal.s (str "Line one.\n\nLine two.")),
         (str "next", PVal.s (str "x"))] := by
  decide

example : parseYAML (str "key: \"hello\"") = [(str "key", PVal.s (str "hello"))] := by decide

example : parseYAML (str "key: hello") = [(str "key", PVal.s (str "hello"))] := by decide

example : parseYAML (str "key: \"hello") = [(str "key", PVal.s (str "hello"))] := by decide

/-- Generic JS value trees consumed by toYAML: null, strings, arrays and
plain objects. -/
inductive Value where
  | vnull : Value
  | vs (v : Str) : Value
  | vlist (items : List Value) : Value
  | vmap (fields : List (Str × Value)) : Value

mutual

def vsize : Value → Nat
  | .vnull => 1
  | .vs _ => 1
  | .vlist items => 1 + lsize items
  | .vmap fields => 1 + fsize fields

def lsize : List Value → Nat
  | [] => 1
  | v :: rest => 1 + vsize v + lsize rest

def fsize : List (Str × Value) → Nat
  | [] => 1
  | (_, v) :: rest => 1 + vsize v + fsize rest

end

def joinComma : List Str → Str
  | [] => []
  | [x] => x
  | x :: rest => x ++ ',' :: joinComma rest

mutual

/-- Fuelled model of JS string conversion `${x}` of a value: strings stay
themselves, `null` prints as "null", plain objects as "[object Object]",
arrays as the comma-join of their elements (with null elements empty).
The fuel in `jsToString` always suffices, so the 0 case is unreachable. -/
def jsToStringF : Nat → Value → Str
  | 0, _ => []
  | _ + 1, .vnull => str "null"
  | _ + 1, .vs v => v
  | _ + 1, .vmap _ => str "[object Object]"
  | f + 1, .vlist items => joinComma (jsElems f items)

def jsElems : Nat → List Value → List Str
  | 0, _ => []
  | _ + 1, [] => []
  | f + 1, v :: rest =>
    (match v with
     | .vnull => []
     | w => jsToStringF f w) :: jsElems f rest

end

def jsToString (v : Value) : Str := jsToStringF (vsize v) v

def natToStr (n : Nat) : Str := Nat.toDigits 10 n

/-- Model of `Object.entries` applied to a JS array: index/value pairs. -/
def enumIdx (l : List Value) : List (Str × Value) :=
  l.enum.map (fun p => (natToStr p.1, p.2))

/-- Indentation prefix `'  '.repeat(indent)`. -/
def spacesN (ind : Nat) : Str := List.replicate (2 * ind) ' '

/-- Continuation fields of a record list item (entries after the first). -/
def emitRecFields (sp : Str) : List (Str × Value) → Str
  | [] => []
  | (k, v) :: rest =>
    sp ++ str "    " ++ k ++ str ": \"" ++ jsToString v ++ str "\"\n" ++ emitRecFields sp rest

/-- A record list item: first entry on the `- ` line, the rest indented. -/
def emitRecord (sp : Str) (entries : List (Str × Value)) : Str :=
  match entries with
  | [] => []
  | (k, v) :: rest =>
    sp ++ str "  - " ++ k ++ str ": \"" ++ jsToString v ++ str "\"\n" ++ emitRecFields sp rest

/-- The list items loop of toYAML.  A `null` item reaches
`Object.entries(null)`, which throws a TypeError: modelled as `none`. -/
def emitItems (sp : Str) : List Value → Option Str
  | [] => some []
  | item :: rest =>
    match item with
    | .vnull => none
    | .vmap flds => (emitItems sp rest).map (fun r => emitRecord sp (jsEntries flds) ++ r)
    | .vlist l => (emitItems sp rest).map (fun r => emitRecord sp (enumIdx l) ++ r)
    | .vs v => (emitItems sp rest).map (fun r => sp ++ str "  - \"" ++ v ++ str "\"\n" ++ r)

/-- Block-scalar emission for a string value containing a newline. -/
def emitBlock (sp : Str) : List Str → Str
  | [] => []
  | l :: rest => sp ++ str "  " ++ l ++ ['\n'] ++ emitBlock sp rest

/-- Fuelled model of the body of toYAML: processes the already-enumerated
entries of the object.  Recursion is fuelled because nested mappings
recurse through `jsEntries`; the fuel chosen in `toYAML` always
suffices (each recursive call strictly decreases the `fsize` measure,
which `jsEntries` preserves), so the 0 case is unreachable. -/
def toYEntriesF : Nat → List (Str × Value) → Nat → Option Str
  | 0, _, _ => none
  | _ + 1, [], _ => some []
  | f + 1, (k, v) :: rest, ind =>
    let sp := spacesN ind
    match v with
    | .vnull => toYEntriesF f rest ind
    | .vlist items =>
      match emitItems sp items, toYEntriesF f rest ind with
      | some body, some r => some (sp ++ k ++ str ":\n" ++ body ++ r)
      | _, _ => none
    | .vmap flds =>
      match toYEntriesF f (jsEntries flds) (ind + 1), toYEntriesF f rest ind with
      | some inner, some r => some (sp ++ k ++ str ":\n" ++ inner ++ r)
      | _, _ => none
    | .vs sv =>
      match toYEntriesF f rest ind with
      | some r =>
        if containsC '\n' sv then
          some (sp ++ k ++ str ": |\n" ++ emitBlock sp (splitLines sv) ++ r)
        else
          some (sp ++ k ++ str ": \"" ++ sv ++ str "\"\n" ++ r)
      | none => none

/-- Model of toYAML from src/api/content.js.  `none` models the one way
the JS function can throw: a null element inside an array value. -/
def toYAML (fields : List (Str × Value)) (ind : Nat) : Option Str :=
  toYEntriesF (fsize fields) (jsEntries fields) ind

/-- Success predicate for toYAML, following exactly the recursion of
`toYEntriesF`: no array value may contain a null element, at any
reachable nesting depth. -/
def goodEF : Nat → List (Str × Value) → Bool
  | 0, _ => false
  | _ + 1, [] => true
  | f + 1, (_, v) :: rest =>
    (match v with
     | .vlist items => items.all (fun i => match i with | .vnull => false | _ => true)
     | .vmap flds => goodEF f (jsEntries flds)
     | _ => true) && goodEF f rest

def goodYAML (fields : List (Str × Value)) : Bool := goodEF (fsize fields) (jsEntries fields)

/-- Model of toMarkdown from src/api/content.js. -/
def toMarkdown (data : List (Str × Value)) (content : Str) : Option Str :=
  match toYAML data 0 with
  | none => none
  | some y =>
    let md := str "---\n"
    let md := md ++ y
    let md := md ++ str "---\n\n"
    let md := md ++ content
    some md

def fmMarker : Str := str "\n---\n"

/-- Scan for the earliest occurrence of "\n---\n" (the lazy group of the
frontmatter regex); returns the text before it and the text after it. -/
def splitAtMarker : Str → Option (Str × Str)
  | [] => none
  | c :: cs =>
    if hasPre fmMarker (c :: cs) then some ([], (c :: cs).drop 5)
    else (splitAtMarker cs).map (fun p => (c :: p.1, p.2))

/-- Model of `text.match(/^---\n([\s\S]*?)\n---\n([\s\S]*)$/)`: the two
capture groups when the pattern matches. -/
def matchFM (text : Str) : Option (Str × Str) :=
  if hasPre (str "---\n") text then splitAtMarker (text.drop 4) else none

/-- Model of parseFrontmatter from src/api/content.js. -/
def parseFrontmatter (text : Str) : List (Str × PVal) × Str :=
  match matchFM text with
  | none => ([], text)
  | some p => (parseYAML p.1, jsTrim p.2)

example : toYAML [(str "k", Value.vlist [Value.vnull])] 0 = none := by decide

example :
    toYAML [(str "name", Value.vs (str "x")), (str "2020", Value.vs (str "y"))] 0
      = some (str "2020: \"y\"\nname: \"x\"\n") := by decide

example :
    toYAML [(str "stats", Value.vlist
        [Value.vmap [(str "number", Value.vs (str "500")), (str "label", Value.vs (str "Workouts"))],
         Value.vmap [(str "number", Value.vs (str "10")), (str "label", Value.vs (str "Years"))]])] 0
      = some (str "stats:\n  - number: \"500\"\n    label: \"Workouts\"\n  - number: \"10\"\n    label: \"Years\"\n") := by
  decide

example :
    parseFrontmatter (str "no delimiters here") = ([], str "no delimiters here") := by decide

example :
    parseFrontmatter (str "---\ntitle: \"hi\"\n---\n\nBody text")
      = ([(str "title", PVal.s (str "hi"))], str "Body text") := by decide

example :
    toMarkdown [(str "title", Value.vs (str "hi"))] (str "Body")
      = some (str "---\ntitle: \"hi\"\n---\n\nBody") := by decide

/-! ### Helper lemmas about the string primitives -/

lemma trimLeft_cons_ws {c : Char} (h : isWS c = true) (s : Str) :
    trimLeft (c :: s) = trimLeft s := by
  simp [trimLeft, h]

lemma trimLeft_cons_not_ws {c : Char} (h : isWS c = false) (s : Str) :
    trimLeft (c :: s) = c :: s := by
  simp [trimLeft, h]

lemma trimLeft_length_le : ∀ s : Str, (trimLeft s).length ≤ s.length := by
  intro s
  induction s with
  | nil => simp [trimLeft]
  | cons c cs ih =>
    cases h : isWS c with
    | false => simp [trimLeft_cons_not_ws h]
    | true =>
      rw [trimLeft_cons_ws h]
      simp
      omega

lemma trimRight_length_le (s : Str) : (trimRight s).length ≤ s.length := by
  have := trimLeft_length_le s.reverse
  simp only [trimRight, List.length_reverse]
  simpa using this

lemma trimLeft_suffix : ∀ s : Str, trimLeft s <:+ s := by
  intro s
  induction s with
  | nil => simp [trimLeft]
  | cons c cs ih =>
    cases h : isWS c with
    | false => rw [trimLeft_cons_not_ws h]
    | true =>
      rw [trimLeft_cons_ws h]
      exact ih.trans (List.suffix_cons c cs)

lemma trimLeft_of_jsTrim_eq {k : Str} (h : jsTrim k = k) : trimLeft k = k := by
  have h1 := trimLeft_length_le k
  have h2 := trimRight_length_le (trimLeft k)
  have hlen : (trimLeft k).length = k.length := by
    have : (jsTrim k).length = k.length := by rw [h]
    simp only [jsTrim] at this
    omega
  exact (trimLeft_suffix k).eq_of_length hlen

lemma head_not_ws_of_trimLeft_eq {c : Char} {k : Str} (h : trimLeft (c :: k) = c :: k) :
    isWS c = false := by
  cases hc : isWS c with
  | false => rfl
  | true =>
    exfalso
    rw [trimLeft_cons_ws hc] at h
    have := trimLeft_length_le k
    have := congrArg List.length h
    simp at this
    omega

lemma trimRight_snoc {c : Char} (h : isWS c = false) (xs : Str) :
    trimRight (xs ++ [c]) = xs ++ [c] := by
  simp only [trimRight, List.reverse_append, List.reverse_cons, List.reverse_nil,
    List.nil_append, List.singleton_append]
  rw [trimLeft_cons_not_ws h]
  simp

lemma jsTrim_of_ends {c : Char} {k : Str} {d : Char}
    (hc : isWS c = false) (hd : isWS d = false) :
    jsTrim (c :: k ++ [d]) = c :: k ++ [d] := by
  simp only [jsTrim]
  rw [show (c :: k ++ [d] : Str) = c :: (k ++ [d]) by simp]
  rw [trimLeft_cons_not_ws hc]
  rw [show (c :: (k ++ [d]) : Str) = (c :: k) ++ [d] by simp]
  exact trimRight_snoc hd (c :: k)

lemma containsC_append (c : Char) (a b : Str) :
    containsC c (a ++ b) = (containsC c a || containsC c b) := by
  simp [containsC]

lemma containsC_cons (c d : Char) (s : Str) :
    containsC c (d :: s) = (decide (d = c) || containsC c s) := by
  simp [containsC]

lemma splitFirstColon_append {k : Str} (h : containsC ':' k = false) (rest : Str) :
    splitFirstColon (k ++ ':' :: rest) = (k, rest) := by
  induction k with
  | nil => simp [splitFirstColon]
  | cons c k' ih =>
    rw [containsC_cons] at h
    simp only [Bool.or_eq_false_iff, decide_eq_false_iff_not] at h
    simp [splitFirstColon, h.1, ih h.2]

lemma splitLines_append {a : Str} (h : containsC '\n' a = false) (b : Str) :
    splitLines (a ++ '\n' :: b) = a :: splitLines b := by
  induction a with
  | nil => simp [splitLines]
  | cons c a' ih =>
    rw [containsC_cons] at h
    simp only [Bool.or_eq_false_iff, decide_eq_false_iff_not] at h
    simp only [List.cons_append, splitLines, if_neg h.1, List.append_eq]
    rw [ih h.2]
    rfl

/-! ### Helper lemmas about quote stripping -/

def headQuote (s : Str) : Bool :=
  match s with
  | [] => false
  | c :: _ => isQuote c

def lastQuote (s : Str) : Bool := headQuote s.reverse

lemma dropLead_cons_quote {c : Char} (h : isQuote c = true) (s : Str) :
    dropLeadQuote (c :: s) = s := by
  simp [dropLeadQuote, h]

lemma dropLead_no_quote {s : Str} (h : headQuote s = false) : dropLeadQuote s = s := by
  cases s with
  | nil => rfl
  | cons c cs => simp only [headQuote] at h; simp [dropLeadQuote, h]

lemma dropTrail_snoc_quote {d : Char} (h : isQuote d = true) (xs : Str) :
    dropTrailQuote (xs ++ [d]) = xs := by
  simp only [dropTrailQuote, List.reverse_append, List.reverse_cons, List.reverse_nil,
    List.nil_append, List.singleton_append]
  rw [dropLead_cons_quote h]
  simp

lemma dropTrail_no_quote {s : Str} (h : lastQuote s = false) : dropTrailQuote s = s := by
  simp only [lastQuote] at h
  simp [dropTrailQuote, dropLead_no_quote h]

lemma stripQuotes_wrap (v : Str) : stripQuotes (quoteD :: v ++ [quoteD]) = v := by
  have hq : isQuote quoteD = true := by decide
  simp only [stripQuotes]
  rw [show (quoteD :: v ++ [quoteD] : Str) = quoteD :: (v ++ [quoteD]) by simp]
  rw [dropLead_cons_quote hq, dropTrail_snoc_quote hq]

/-! ### Helper lemmas about jsEntries -/

lemma filter_idx_nil {α : Type} {l : List (Str × α)}
    (h : ∀ p ∈ l, arrayIndex p.1 = none) : l.filter idxPair = [] := by
  rw [List.filter_eq_nil_iff]
  intro p hp
  simp [idxPair, h p hp]

lemma filter_not_idx_self {α : Type} {l : List (Str × α)}
    (h : ∀ p ∈ l, arrayIndex p.1 = none) :
    l.filter (fun p => !(idxPair p)) = l := by
  rw [List.filter_eq_self]
  intro p hp
  simp [idxPair, h p hp]

lemma jsEntries_of_no_idx {α : Type} {l : List (Str × α)}
    (h : ∀ p ∈ l, arrayIndex p.1 = none) : jsEntries l = l := by
  simp [jsEntries, filter_idx_nil h, filter_not_idx_self h, sortIdx]

/-! ### Helper lemmas about the serializer's success -/

lemma emitItems_isSome (sp : Str) :
    ∀ items : List Value, (∀ i ∈ items, i ≠ Value.vnull) →
      (emitItems sp items).isSome = true := by
  intro items
  induction items with
  | nil => intro _; simp [emitItems]
  | cons v rest ih =>
    intro h
    have hrest := ih (fun i hi => h i (List.mem_cons_of_mem _ hi))
    obtain ⟨r, hr⟩ := Option.isSome_iff_exists.mp hrest
    cases v with
    | vnull => exact absurd rfl (h _ (List.mem_cons_self _ _))
    | vs s => simp [emitItems, hr]
    | vlist l => simp [emitItems, hr]
    | vmap flds => simp [emitItems, hr]

lemma toYEntriesF_isSome :
    ∀ (f : Nat) (l : List (Str × Value)) (ind : Nat),
      goodEF f l = true → (toYEntriesF f l ind).isSome = true := by
  intro f
  induction f with
  | zero => intro l ind h; simp [goodEF] at h
  | succ f ih =>
    intro l ind h
    cases l with
    | nil => simp [toYEntriesF]
    | cons p rest =>
      obtain ⟨k, v⟩ := p
      simp only [goodEF, Bool.and_eq_true] at h
      obtain ⟨r, hr⟩ := Option.isSome_iff_exists.mp (ih rest ind h.2)
      cases v with
      | vnull => simpa [toYEntriesF] using ih rest ind h.2
      | vs sv =>
        simp only [toYEntriesF, hr]
        split <;> simp
      | vlist items =>
        have hi : ∀ i ∈ items, i ≠ Value.vnull := by
          intro i hi hnull
          have := List.all_eq_true.mp h.1 i hi
          subst hnull
          simp at this
        obtain ⟨b, hb⟩ := Option.isSome_iff_exists.mp (emitItems_isSome (spacesN ind) items hi)
        simp [toYEntriesF, hb, hr]
      | vmap flds =>
        obtain ⟨i2, hi2⟩ := Option.isSome_iff_exists.mp (ih (jsEntries flds) (ind + 1) h.1)
        simp [toYEntriesF, hi2, hr]

/-! ### Helper lemmas about objSet -/

lemma objSet_append {α : Type} {k : Str} (v : α) :
    ∀ acc : List (Str × α), k ∉ acc.map Prod.fst → k ≠ protoKey →
      objSet acc k v = acc ++ [(k, v)] := by
  intro acc
  induction acc with
  | nil => intro _ hp; simp [objSet, if_neg hp, objSetGo]
  | cons p rest ih =>
    intro h hp
    obtain ⟨k2, v2⟩ := p
    simp only [List.map_cons, List.mem_cons] at h
    push_neg at h
    have h2 : ¬(k2 = k) := fun e => h.1 (by simp [e.symm])
    have := ih h.2 hp
    simp only [objSet, if_neg hp] at this ⊢
    simp [objSetGo, h2, this]

/-! ### Machinery for the flat-mapping round trip (claim C1) -/

/-- The serialized line of one flat scalar entry, without its newline. -/
def kvLine (k v : Str) : Str := k ++ ':' :: ' ' :: quoteD :: (v ++ [quoteD])

/-- Serialized text of a flat scalar mapping at indent 0. -/
def flatText : List (Str × Str) → Str
  | [] => []
  | (k, v) :: rest => kvLine k v ++ '\n' :: flatText rest

/-- Conditions on a key under which a serialized flat scalar line parses
back unchanged: no surrounding whitespace, no colon, no newline, no
leading comment or dash marker, not the `__proto__` trap, and not an
array-index string (which JS would reorder). -/
abbrev goodKey (k : Str) : Prop :=
  jsTrim k = k ∧ containsC ':' k = false ∧ containsC '\n' k = false ∧
  hasPre ['#'] k = false ∧ hasPre ['-'] k = false ∧
  k ≠ protoKey ∧ arrayIndex k = none

/-- Conditions on a flat scalar value: nonempty (an empty value parses as
a pending list key instead) and single-line. -/
abbrev goodScalarV (v : Str) : Prop := v ≠ [] ∧ containsC '\n' v = false

lemma containsC_nil (c : Char) : containsC c [] = false := rfl

lemma flat_toYEntriesF :
    ∀ (m : List (Str × Str)) (f : Nat),
      fsize (m.map (fun p => (p.1, Value.vs p.2))) ≤ f →
      (∀ p ∈ m, containsC '\n' p.2 = false) →
      toYEntriesF f (m.map (fun p => (p.1, Value.vs p.2))) 0 = some (flatText m) := by
  intro m
  induction m with
  | nil =>
    intro f hf _
    cases f with
    | zero => exfalso; simp [fsize] at hf
    | succ f => simp [toYEntriesF, flatText]
  | cons p rest ih =>
    intro f hf hnl
    obtain ⟨k, v⟩ := p
    cases f with
    | zero => exfalso; rw [List.map_cons] at hf; simp [fsize, vsize] at hf
    | succ f =>
      rw [List.map_cons] at hf ⊢
      have hv := hnl (k, v) (List.mem_cons_self _ _)
      have hrest : fsize (rest.map fun p => (p.1, Value.vs p.2)) ≤ f := by
        simp only [fsize, vsize] at hf
        omega
      have e3 : (str ": \"" : Str) = [':', ' ', quoteD] := by decide
      have e4 : (str "\"\n" : Str) = [quoteD, '\n'] := by decide
      simp only [toYEntriesF]
      rw [ih f hrest (fun p hp => hnl p (List.mem_cons_of_mem _ hp))]
      simp [hv, flatText, kvLine, e3, e4, spacesN, List.append_assoc]

lemma splitLines_flatText :
    ∀ m : List (Str × Str),
      (∀ p ∈ m, containsC '\n' p.1 = false ∧ containsC '\n' p.2 = false) →
      splitLines (flatText m) = (m.map fun p => kvLine p.1 p.2) ++ [[]] := by
  intro m
  induction m with
  | nil => intro _; simp [flatText, splitLines]
  | cons p rest ih =>
    intro h
    obtain ⟨k, v⟩ := p
    have hp := h (k, v) (List.mem_cons_self _ _)
    have hkv : containsC '\n' (kvLine k v) = false := by
      simp [kvLine, containsC_append, containsC_cons, containsC_nil, hp.1, hp.2]
      decide
    simp only [flatText]
    rw [splitLines_append hkv]
    rw [ih (fun q hq => h q (List.mem_cons_of_mem _ hq))]
    simp

lemma jsTrim_kvLine {k : Str} (v : Str) (hk : jsTrim k = k) :
    jsTrim (kvLine k v) = kvLine k v := by
  cases k with
  | nil =>
    have := jsTrim_of_ends (c := ':') (k := ' ' :: quoteD :: v) (d := quoteD)
      (by decide) (by decide)
    simpa [kvLine, List.append_assoc] using this
  | cons c k2 =>
    have hc : isWS c = false := head_not_ws_of_trimLeft_eq (trimLeft_of_jsTrim_eq hk)
    have := jsTrim_of_ends (c := c) (k := k2 ++ ':' :: ' ' :: quoteD :: v) (d := quoteD)
      hc (by decide)
    simpa [kvLine, List.append_assoc] using this

lemma stepLine_kv (acc : List (Str × PVal)) (ck : Option Str) (mk mc : Str) (il : Int)
    (k v : Str)
    (hk : jsTrim k = k) (hkc : containsC ':' k = false)
    (hkh : hasPre ['#'] k = false) (hkd : hasPre ['-'] k = false)
    (hv : v ≠ []) :
    stepLine ⟨acc, ck, none, none, false, mk, mc, il⟩ (kvLine k v)
      = ⟨objSet acc k (PVal.s v), ck, none, none, false, mk, mc, il⟩ := by
  have htrim : jsTrim (kvLine k v) = kvLine k v := jsTrim_kvLine v hk
  have hemp : (kvLine k v).isEmpty = false := by
    cases k <;> simp [kvLine]
  have hhash : hasPre ['#'] (kvLine k v) = false := by
    cases k with
    | nil => simp [kvLine, hasPre]
    | cons c k2 =>
      simp only [hasPre, Bool.and_eq_false_iff] at hkh
      simp [kvLine, hasPre]
      simpa using hkh
  have hdash1 : hasPre ['-'] (kvLine k v) = false := by
    cases k with
    | nil => simp [kvLine, hasPre]
    | cons c k2 =>
      have hc : ¬(('-' : Char) = c) := by simpa [hasPre] using hkd
      simp [kvLine, hasPre, hc]
  have hdash2 : hasPre ['-', ' '] (kvLine k v) = false := by
    cases k with
    | nil => simp [kvLine, hasPre]
    | cons c k2 =>
      have hc : ¬(('-' : Char) = c) := by simpa [hasPre] using hkd
      simp [kvLine, hasPre, hc]
  have hbar : endsW ['|'] (kvLine k v) = false := by
    have hsh : kvLine k v = (k ++ ':' :: ' ' :: quoteD :: v) ++ [quoteD] := by
      simp [kvLine, List.append_assoc]
    simp [endsW, hsh, hasPre]
    decide
  have hcol : containsC ':' (kvLine k v) = true := by
    simp [kvLine, containsC_append, containsC_cons]
  have hsplit : splitFirstColon (kvLine k v) = (k, ' ' :: quoteD :: (v ++ [quoteD])) := by
    unfold kvLine
    exact splitFirstColon_append hkc _
  have hval : stripQuotes (jsTrim (' ' :: quoteD :: (v ++ [quoteD]))) = v := by
    have htr : jsTrim (' ' :: quoteD :: (v ++ [quoteD])) = (quoteD :: v) ++ [quoteD] := by
      simp only [jsTrim]
      rw [trimLeft_cons_ws (c := ' ') (by decide),
        trimLeft_cons_not_ws (c := quoteD) (by decide)]
      rw [show (quoteD :: (v ++ [quoteD]) : Str) = (quoteD :: v) ++ [quoteD] by simp]
      rw [trimRight_snoc (c := quoteD) (by decide)]
    rw [htr]
    exact stripQuotes_wrap v
  have hvne : v.isEmpty = false := by
    cases v with
    | nil => exact absurd rfl hv
    | cons a b => simp
  simp only [stepLine, stepRest, htrim, hemp, hhash, hbar, hdash2, hcol, hdash1, hsplit,
    hk, hval, hvne, Bool.or_self, Bool.false_or, Bool.or_false, Bool.and_self,
    Bool.not_false, Bool.and_true, Bool.true_and, Bool.false_and, Option.isSome_none,
    if_false, if_true]
  simp

lemma fold_kv :
    ∀ (m : List (Str × Str)) (acc : List (Str × PVal)) (ck : Option Str)
      (mk mc : Str) (il : Int),
      (∀ p ∈ m, goodKey p.1 ∧ goodScalarV p.2) →
      (List.map Prod.fst m).Nodup →
      (∀ p ∈ m, p.1 ∉ acc.map Prod.fst) →
      List.foldl stepLine ⟨acc, ck, none, none, false, mk, mc, il⟩
          ((m.map fun p => kvLine p.1 p.2) ++ [[]])
        = ⟨acc ++ m.map (fun p => (p.1, PVal.s p.2)), ck, none, none, false, mk, mc, il⟩ := by
  intro m
  induction m with
  | nil =>
    intro acc ck mk mc il _ _ _
    have hstep : stepLine (⟨acc, ck, none, none, false, mk, mc, il⟩ : PState) []
        = ⟨acc, ck, none, none, false, mk, mc, il⟩ := rfl
    simp [hstep]
  | cons p rest ih =>
    intro acc ck mk mc il hg hnd hdisj
    obtain ⟨k, v⟩ := p
    obtain ⟨⟨hk1, hk2, hk3, hk4, hk5, hk6, hk7⟩, hv1, hv2⟩ :=
      hg (k, v) (List.mem_cons_self _ _)
    simp only [List.map_cons, List.cons_append, List.foldl_cons]
    rw [stepLine_kv acc ck mk mc il k v hk1 hk2 hk4 hk5 hv1]
    rw [objSet_append _ acc (hdisj (k, v) (List.mem_cons_self _ _)) hk6]
    rw [List.map_cons] at hnd
    have hnd' := hnd
    rw [List.nodup_cons] at hnd'
    rw [ih (acc ++ [(k, PVal.s v)]) ck mk mc il
      (fun q hq => hg q (List.mem_cons_of_mem _ hq)) hnd'.2 ?_]
    · simp
    · intro q hq
      simp only [List.map_append, List.map_cons, List.map_nil, List.mem_append,
        List.mem_singleton]
      push_neg
      refine ⟨hdisj q (List.mem_cons_of_mem _ hq), ?_⟩
      intro he
      exact hnd'.1 (he ▸ (List.mem_map.mpr ⟨q, hq, rfl⟩))

/-! ### Claim C1 (corrected): round trip -/

/-- C1 counterexample: the round trip fails on a list of two single-level
records (a shape the claim includes): serializing the two-record stats
mapping and parsing the result collapses the list to one merged record. -/
theorem c1_counterexample :
    ((toYAML [(str "stats", Value.vlist
        [Value.vmap [(str "number", Value.vs (str "500")),
                     (str "label", Value.vs (str "Workouts"))],
         Value.vmap [(str "number", Value.vs (str "10")),
                     (str "label", Value.vs (str "Years"))]])] 0).map parseYAML)
      = some [(str "stats", PVal.list [[(str "number", str "10"), (str "label", str "Years")]])]
    ∧ ((toYAML [(str "stats", Value.vlist
        [Value.vmap [(str "number", Value.vs (str "500")),
                     (str "label", Value.vs (str "Workouts"))],
         Value.vmap [(str "number", Value.vs (str "10")),
                     (str "label", Value.vs (str "Years"))]])] 0).map parseYAML)
      ≠ some [(str "stats", PVal.list
          [[(str "number", str "500"), (str "label", str "Workouts")],
           [(str "number", str "10"), (str "label", str "Years")]])] :=
  ⟨by decide, by decide⟩

/-- C1 amended: the round trip `parseYAML (toYAML m)` reproduces `m`
key-for-key for mappings of flat string scalars whose keys carry no
colon, newline, leading `#` or `-`, or surrounding whitespace, are
distinct, are not `__proto__` and not array-index strings, and whose
values are nonempty and single-line.  (The other claimed shapes fail:
lists of strings parse back as `text:` records, multi-record lists merge
into one record, nested mappings flatten, and a trailing multiline block
is dropped.) -/
theorem c1_amended (m : List (Str × Str))
    (hg : ∀ p ∈ m, goodKey p.1 ∧ goodScalarV p.2)
    (hnd : (m.map Prod.fst).Nodup) :
    (toYAML (m.map (fun p => (p.1, Value.vs p.2))) 0).map parseYAML
      = some (m.map (fun p => (p.1, PVal.s p.2))) := by
  have hnoidx : ∀ p ∈ (m.map fun p => (p.1, Value.vs p.2)), arrayIndex p.1 = none := by
    intro p hp
    obtain ⟨q, hq, rfl⟩ := List.mem_map.mp hp
    exact ((hg q hq).1).2.2.2.2.2.2
  have hnl : ∀ p ∈ m, containsC '\n' p.2 = false := fun p hp => (hg p hp).2.2
  simp only [toYAML]
  rw [jsEntries_of_no_idx hnoidx]
  rw [flat_toYEntriesF m _ (le_refl _) hnl]
  have hmap : (some (flatText m)).map parseYAML = some (parseYAML (flatText m)) := rfl
  rw [hmap]
  congr 1
  unfold parseYAML
  rw [splitLines_flatText m (fun p hp => ⟨(hg p hp).1.2.2.1, (hg p hp).2.2⟩)]
  have hinit : initState = (⟨[], none, none, none, false, [], [], 0⟩ : PState) := rfl
  rw [hinit, fold_kv m [] none [] [] 0 hg hnd (by simp)]
  simp [finishState]

/-- C1 witness: the amended round trip at a concrete flat mapping. -/
theorem c1_witness :
    (∀ p ∈ [(str "title", str "Hello"), (str "author", str "Dwayne")],
        goodKey p.1 ∧ goodScalarV p.2)
    ∧ (List.map Prod.fst [(str "title", str "Hello"), (str "author", str "Dwayne")]).Nodup
    ∧ (toYAML ([(str "title", str "Hello"), (str "author", str "Dwayne")].map
          (fun p => (p.1, Value.vs p.2))) 0).map parseYAML
        = some ([(str "title", str "Hello"), (str "author", str "Dwayne")].map
            (fun p => (p.1, PVal.s p.2))) :=
  ⟨by decide, by decide,
   c1_amended [(str "title", str "Hello"), (str "author", str "Dwayne")]
     (by decide) (by decide)⟩

/-! ### Claim C2 (code bug): record flush on a new `- key: value` line -/

/-- C2: the claim states that a `- key: value` line starting a new record
first flushes the previously accumulated record, so the two-record stats
input parses to a two-element list.  The code has no flush in that branch:
it merges the fields into the open record, so the input parses to the ONE
record [(number, 10), (label, Years)].  This theorem evaluates the code at
the claim's own input and shows the result differs from the claimed one. -/
theorem c2_code_eval :
    parseYAML (str "stats:\n  - number: \"500\"\n    label: \"Workouts\"\n  - number: \"10\"\n    label: \"Years\"")
        = [(str "stats", PVal.list [[(str "number", str "10"), (str "label", str "Years")]])]
    ∧ [(str "stats", PVal.list [[(str "number", str "10"), (str "label", str "Years")]])]
        ≠ [(str "stats", PVal.list
            [[(str "number", str "500"), (str "label", str "Workouts")],
             [(str "number", str "10"), (str "label", str "Years")]])] :=
  ⟨by decide, by decide⟩

/-! ### Claim C6 (code bug): multiline block scalars -/

/-- C6: inside a block scalar a blank line does contribute a literal
newline, but the claim's exact input ends while the block is still open,
and the code never commits an open block at end of input: the result is
the empty mapping, not bio = "Line one.\n\nLine two.".  With one more
zero-indent line after the block, the claimed value does appear. -/
theorem c6_code_eval :
    parseYAML (str "bio: |\n  Line one.\n\n  Line two.") = []
    ∧ parseYAML (str "bio: |\n  Line one.\n\n  Line two.\nnext: \"x\"")
        = [(str "bio", PVal.s (str "Line one.\n\nLine two.")),
           (str "next", PVal.s (str "x"))] :=
  ⟨by decide, by decide⟩

/-! ### Claim C3: parser totality, root shape, unrecognized lines -/

/-- C3: parseYAML is a total function into a mapping for every input (it
is defined by structural recursion over the split lines, so termination
and the mapping-shaped root hold by construction), and a line that matches
none of the recognized shapes (non-blank, no comment marker, no trailing
pipe, no `- ` head, no colon, outside a multiline block) leaves the parse
state completely unchanged, hence contributes nothing. -/
theorem c3_parser_total :
    (∀ (st : PState) (line : Str),
        st.inMulti = false →
        jsTrim line ≠ [] →
        hasPre ['#'] (jsTrim line) = false →
        endsW ['|'] (jsTrim line) = false →
        hasPre ['-', ' '] (jsTrim line) = false →
        containsC ':' (jsTrim line) = false →
        stepLine st line = st)
    ∧ (∀ text : Str, ∃ fields : List (Str × PVal), parseYAML text = fields)
    ∧ parseYAML (str "[1, 2, 3]\njust words\n!!??") = [] := by
  refine ⟨?_, fun text => ⟨_, rfl⟩, by decide⟩
  intro st line hm hne hh hb hd hc
  have hemp : (jsTrim line).isEmpty = false := by
    cases h : jsTrim line with
    | nil => exact absurd h hne
    | cons c cs => simp
  unfold stepLine stepRest
  simp only [hemp, hh, hm, hb, hd, hc, Bool.or_self, Bool.false_and, Bool.and_false,
    Bool.false_eq_true, if_false, Bool.not_false, Bool.and_true, ite_self]
  split
  · rfl
  · simp

/-- C3 witness: a concrete unrecognized line leaves a concrete state
unchanged. -/
theorem c3_witness :
    initState.inMulti = false
    ∧ jsTrim (str "just some words") ≠ []
    ∧ hasPre ['#'] (jsTrim (str "just some words")) = false
    ∧ endsW ['|'] (jsTrim (str "just some words")) = false
    ∧ hasPre ['-', ' '] (jsTrim (str "just some words")) = false
    ∧ containsC ':' (jsTrim (str "just some words")) = false
    ∧ stepLine initState (str "just some words") = initState :=
  ⟨by decide, by decide, by decide, by decide, by decide, by decide,
   c3_parser_total.1 initState (str "just some words")
     (by decide) (by decide) (by decide) (by decide) (by decide) (by decide)⟩

/-! ### Claim C4 (corrected): serializer totality -/

/-- C4 counterexample: the claim asserts toYAML never fails even when null
appears as a list element; but a null list element reaches
`Object.entries(null)`, which throws a TypeError (modelled as `none`). -/
theorem c4_counterexample :
    toYAML [(str "k", Value.vlist [Value.vnull])] 0 = none := by decide

/-- C4 amended: toYAML returns a string for every value tree built from
the four shapes in which null does not occur as an element of a list
value (null as a mapping value is fine: the key is skipped).  `goodYAML`
states exactly that, following the serializer's own traversal. -/
theorem c4_amended (fields : List (Str × Value)) (ind : Nat)
    (h : goodYAML fields = true) : (toYAML fields ind).isSome = true :=
  toYEntriesF_isSome _ _ _ h

/-- C4 witness: a concrete tree with null mapping values, a nested map, a
record list and a scalar list serializes successfully. -/
theorem c4_witness :
    goodYAML [(str "a", Value.vnull),
              (str "b", Value.vs (str "x")),
              (str "c", Value.vlist [Value.vmap [(str "f", Value.vs (str "1"))],
                                     Value.vs (str "g")]),
              (str "d", Value.vmap [(str "e", Value.vs (str "y"))])] = true
    ∧ (toYAML [(str "a", Value.vnull),
               (str "b", Value.vs (str "x")),
               (str "c", Value.vlist [Value.vmap [(str "f", Value.vs (str "1"))],
                                      Value.vs (str "g")]),
               (str "d", Value.vmap [(str "e", Value.vs (str "y"))])] 0).isSome = true :=
  ⟨by decide, c4_amended _ 0 (by decide)⟩

/-! ### Claim C5 (corrected): quote stripping -/

/-- C5 counterexample: the claim states a value with a quote at only one
end is left unchanged; the global regex strips it, so `key: "hello`
stores `hello`, not `"hello`. -/
theorem c5_counterexample :
    parseYAML (str "key: \"hello") = [(str "key", PVal.s (str "hello"))]
    ∧ parseYAML (str "key: \"hello") ≠ [(str "key", PVal.s (str "\"hello"))] :=
  ⟨by decide, by decide⟩

/-- C5 amended: one leading quote character is removed when present and
one trailing quote character is removed when present, independently of
each other (so one-sided or mismatched quotes are stripped too); no
escape processing happens; and parsing `key: "hello"` and `key: hello`
store the identical value `hello`. -/
theorem c5_amended :
    (∀ (c d : Char) (mid : Str), isQuote c = true → isQuote d = true →
        stripQuotes (c :: mid ++ [d]) = mid)
    ∧ (∀ (c : Char) (mid : Str), isQuote c = true → lastQuote mid = false →
        stripQuotes (c :: mid) = mid)
    ∧ (∀ (d : Char) (mid : Str), isQuote d = true → headQuote mid = false →
        stripQuotes (mid ++ [d]) = mid)
    ∧ (∀ s : Str, headQuote s = false → lastQuote s = false → stripQuotes s = s)
    ∧ parseYAML (str "key: \"hello\"") = [(str "key", PVal.s (str "hello"))]
    ∧ parseYAML (str "key: hello") = [(str "key", PVal.s (str "hello"))] := by
  refine ⟨?_, ?_, ?_, ?_, by decide, by decide⟩
  · intro c d mid hc hd
    rw [show (c :: mid ++ [d] : Str) = c :: (mid ++ [d]) by simp]
    simp only [stripQuotes]
    rw [dropLead_cons_quote hc, dropTrail_snoc_quote hd]
  · intro c mid hc hmid
    simp only [stripQuotes]
    rw [dropLead_cons_quote hc, dropTrail_no_quote hmid]
  · intro d mid hd hmid
    cases mid with
    | nil =>
      simp only [stripQuotes, List.nil_append]
      rw [show dropLeadQuote [d] = dropLeadQuote (d :: []) from rfl, dropLead_cons_quote hd]
      rfl
    | cons m ms =>
      simp only [stripQuotes]
      rw [dropLead_no_quote (s := (m :: ms) ++ [d]) (by simpa [headQuote] using hmid),
        dropTrail_snoc_quote hd]
  · intro s h1 h2
    simp only [stripQuotes]
    rw [dropLead_no_quote h1, dropTrail_no_quote h2]

/-- C5 witness: applying the amended strip law at concrete inputs. -/
theorem c5_witness :
    isQuote quoteD = true
    ∧ stripQuotes (quoteD :: str "ab" ++ [quoteD]) = str "ab"
    ∧ lastQuote (str "ab") = false
    ∧ stripQuotes (quoteD :: str "ab") = str "ab" :=
  ⟨by decide,
   c5_amended.1 quoteD quoteD (str "ab") (by decide) (by decide),
   by decide,
   c5_amended.2.1 quoteD (str "ab") (by decide) (by decide)⟩

/-! ### Claim C7: frontmatter fallback -/

/-- C7: for every input that does not match the frontmatter pattern —
either it does not start with the opening delimiter line `---`, or no
closing delimiter line followed by a newline occurs afterwards —
parseFrontmatter returns empty metadata and the text unchanged, and it
never fails; in particular on "no delimiters here". -/
theorem c7_fallback :
    (∀ text : Str, matchFM text = none → parseFrontmatter text = ([], text))
    ∧ (∀ text : Str, hasPre (str "---\n") text = false → parseFrontmatter text = ([], text))
    ∧ (∀ text : Str, splitAtMarker (text.drop 4) = none → parseFrontmatter text = ([], text))
    ∧ parseFrontmatter (str "no delimiters here") = ([], str "no delimiters here") := by
  have base : ∀ text : Str, matchFM text = none → parseFrontmatter text = ([], text) := by
    intro text h
    simp [parseFrontmatter, h]
  refine ⟨base, ?_, ?_, by decide⟩
  · intro text h
    exact base text (by simp [matchFM, h])
  · intro text h
    refine base text ?_
    unfold matchFM
    split
    · exact h
    · rfl

/-- C7 witness: the fallback applied at the claim's concrete input. -/
theorem c7_witness :
    matchFM (str "no delimiters here") = none
    ∧ parseFrontmatter (str "no delimiters here") = ([], str "no delimiters here") :=
  ⟨by decide, c7_fallback.1 (str "no delimiters here") (by decide)⟩

/-! ### Claim C8: toMarkdown structure -/

/-- C8: for every metadata mapping and body, toMarkdown is the
concatenation of an opening delimiter line, the toYAML serialization of
the metadata, a closing delimiter line, a blank line, and the body
verbatim (whenever the serialization itself succeeds; a failing
serialization propagates). -/
theorem c8_compose (data : List (Str × Value)) (content : Str) :
    toMarkdown data content
      = (toYAML data 0).map
          (fun y => (str "---" ++ ['\n']) ++ y ++ ((str "---" ++ ['\n']) ++ ('\n' :: content))) := by
  have e1 : str "---\n" = str "---" ++ ['\n'] := by decide
  have e2 : str "---\n\n" = (str "---" ++ ['\n']) ++ ['\n'] := by decide
  cases h : toYAML data 0 with
  | none => simp [toMarkdown, h]
  | some y => simp [toMarkdown, h, e1, e2]

/-! ### Claim C9 (corrected): key ordering -/

/-- C9 counterexample: the claim asserts source/insertion key order even
for integer-like keys such as "2020"; but JS objects enumerate
array-index keys first in ascending numeric order, so both the parsed
mapping and the serializer output put "2020" before "name". -/
theorem c9_counterexample :
    jsEntries (parseYAML (str "name: \"x\"\n2020: \"y\""))
        = [(str "2020", PVal.s (str "y")), (str "name", PVal.s (str "x"))]
    ∧ jsEntries (parseYAML (str "name: \"x\"\n2020: \"y\""))
        ≠ [(str "name", PVal.s (str "x")), (str "2020", PVal.s (str "y"))]
    ∧ toYAML [(str "name", Value.vs (str "x")), (str "2020", Value.vs (str "y"))] 0
        = some (str "2020: \"y\"\nname: \"x\"\n")
    ∧ toYAML [(str "name", Value.vs (str "x")), (str "2020", Value.vs (str "y"))] 0
        ≠ some (str "name: \"x\"\n2020: \"y\"\n") :=
  ⟨by decide, by decide, by decide, by decide⟩

/-- C9 amended: key order is preserved (parse: source order; serialize:
insertion order) exactly when no key is an array-index string (a
canonical decimal below 2^32 - 1); array-index keys are enumerated first
in ascending numeric order.  Under that restriction enumeration is the
identity, the parsed mapping enumerates in its stored source order, and
toYAML iterates its argument in insertion order. -/
theorem c9_amended :
    (∀ (α : Type) (l : List (Str × α)),
        (∀ p ∈ l, arrayIndex p.1 = none) → jsEntries l = l)
    ∧ (∀ text : Str,
        (∀ p ∈ parseYAML text, arrayIndex p.1 = none) →
        jsEntries (parseYAML text) = parseYAML text)
    ∧ (∀ (fields : List (Str × Value)) (ind : Nat),
        (∀ p ∈ fields, arrayIndex p.1 = none) →
        toYAML fields ind = toYEntriesF (fsize fields) fields ind) := by
  refine ⟨fun α l h => jsEntries_of_no_idx h, fun text h => jsEntries_of_no_idx h, ?_⟩
  intro fields ind h
  simp [toYAML, jsEntries_of_no_idx h]

/-- C9 witness: the amended ordering law at a concrete mapping without
array-index keys. -/
theorem c9_witness :
    (∀ p ∈ [(str "name", PVal.s (str "x")), (str "zip", PVal.s (str "y"))],
        arrayIndex p.1 = none)
    ∧ jsEntries [(str "name", PVal.s (str "x")), (str "zip", PVal.s (str "y"))]
        = [(str "name", PVal.s (str "x")), (str "zip", PVal.s (str "y"))] :=
  ⟨by decide, c9_amended.1 PVal _ (by decide)⟩

/-! ### Claim C10 (corrected): closing-delimiter newline requirement -/

/-- C10 counterexample: the claim quantifies over every input beginning
with the opening delimiter and ending exactly with "\n---"; but when an
earlier closing delimiter followed by a newline exists inside the text,
the pattern matches there and metadata IS parsed, so the fallback is not
returned. -/
theorem c10_counterexample :
    hasPre (str "---\n") (str "---\na: \"b\"\n---\nbody\n---") = true
    ∧ endsW (str "\n---") (str "---\na: \"b\"\n---\nbody\n---") = true
    ∧ parseFrontmatter (str "---\na: \"b\"\n---\nbody\n---")
        = ([(str "a", PVal.s (str "b"))], str "body\n---")
    ∧ parseFrontmatter (str "---\na: \"b\"\n---\nbody\n---")
        ≠ ([], str "---\na: \"b\"\n---\nbody\n---") :=
  ⟨by decide, by decide, by decide, by decide⟩

/-- C10 amended: metadata is parsed only when a closing delimiter line is
followed by a newline character: an input that begins with the opening
delimiter, ends exactly with "\n---", and contains no occurrence of
"\n---\n" after the opening delimiter, falls back to empty metadata with
the whole text unchanged. -/
theorem c10_amended (text : Str)
    (h1 : hasPre (str "---\n") text = true)
    (h2 : endsW (str "\n---") text = true)
    (h3 : splitAtMarker (text.drop 4) = none) :
    parseFrontmatter text = ([], text) := by
  simp [parseFrontmatter, matchFM, h1, h3]

/-- C10 witness: the amended fallback at a concrete input whose closing
delimiter is not followed by a newline. -/
theorem c10_witness :
    hasPre (str "---\n") (str "---\ntitle: x\n---") = true
    ∧ endsW (str "\n---") (str "---\ntitle: x\n---") = true
    ∧ splitAtMarker ((str "---\ntitle: x\n---").drop 4) = none
    ∧ parseFrontmatter (str "---\ntitle: x\n---") = ([], str "---\ntitle: x\n---") :=
  ⟨by decide, by decide, by decide,
   c10_amended (str "---\ntitle: x\n---") (by decide) (by decide) (by decide)⟩

end Gio
